import Mathlib

/-!
Verification development for the myy_player playback engine.

The definitions below are a shallow embedding of the Rust sources:

* `src/core/clock.rs`        — `PlaybackClock` (`ClockInner`, `clockNow`, `setTime`, …)
* `src/core/types.rs`        — `PlaybackState`, `SubtitleFrame`, `PlayerState`, `MediaInfo`
* `src/player/manager.rs`    — `PlaybackManager` (controller operations, decode-loop
  frame steps, frame/subtitle selection)
* `src/app/mod.rs`           — the GUI-side three-tier frame pull (`render_video_area`)
* `src/player/decoder.rs`    — `SubtitleDecoder::clean_subtitle_text`
* `src/player/external_subtitle.rs` — external subtitle parsers and `clean_ass_text`

Modeling conventions: wall-clock instants are `Nat` milliseconds passed explicitly;
`f64` arithmetic of the clock is modeled over `ℚ` with the Rust `as i64` cast as
truncation toward zero; frames are represented by their PTS (`Int` milliseconds);
lock-free queues (`SegQueue`) are FIFO lists (head = front); channels are lists of
pending messages.  Thread handles are booleans (`true` = a joinable handle is held);
taking + joining a handle sets the flag to `false`.
-/

/-! ### Rational helpers (f64 model) -/

/-- Floor of a rational, computably (`q.den` is positive, so `ediv` is floor division). -/
def qFloor (q : ℚ) : ℤ := Int.ediv q.num q.den

/-- Rust `as i64` on a finite f64 truncates toward zero. -/
def truncQ (q : ℚ) : ℤ := if 0 ≤ q then qFloor q else -(qFloor (-q))

/-! ### `src/core/clock.rs` — the master clock -/

/-- `ClockInner`: `base_pts`, `base_instant`, `playback_rate`, `paused`, `paused_at`. -/
structure ClockInner where
  basePts : Int
  baseInstant : Nat
  playbackRate : ℚ
  paused : Bool
  pausedAt : Int
deriving DecidableEq

/-- `PlaybackClock::new` at wall instant `w`. -/
def clockNew (w : Nat) : ClockInner :=
  { basePts := 0, baseInstant := w, playbackRate := 1, paused := true, pausedAt := 0 }

/-- `PlaybackClock::now` read at wall instant `w` (ms).  `elapsed` is `Nat`
subtraction, matching `Instant::elapsed` never being negative. -/
def clockNow (c : ClockInner) (w : Nat) : Int :=
  if c.paused then c.pausedAt
  else c.basePts + truncQ (((w - c.baseInstant : Nat) : ℚ) * c.playbackRate)

/-- `PlaybackClock::set_time`. -/
def setTime (c : ClockInner) (pts : Int) (w : Nat) : ClockInner :=
  { c with basePts := pts, baseInstant := w, pausedAt := pts }

/-- `PlaybackClock::play`. -/
def clockPlay (c : ClockInner) (w : Nat) : ClockInner :=
  if c.paused then { c with basePts := c.pausedAt, baseInstant := w, paused := false }
  else c

/-- `PlaybackClock::pause`. -/
def clockPause (c : ClockInner) (w : Nat) : ClockInner :=
  if c.paused then c
  else { c with pausedAt := clockNow c w, paused := true }

/-- `PlaybackClock::set_rate`. -/
def clockSetRate (c : ClockInner) (r : ℚ) (w : Nat) : ClockInner :=
  if c.paused then { c with playbackRate := r }
  else { c with basePts := clockNow c w, baseInstant := w, playbackRate := r }

/-- A clock operation other than `set_time`, tagged with its wall instant. -/
inductive ClockOp where
  | play (w : Nat)
  | pause (w : Nat)
  | setRate (r : ℚ) (w : Nat)
deriving DecidableEq

def clockOpTime : ClockOp → Nat
  | .play w => w
  | .pause w => w
  | .setRate _ w => w

def applyClockOp (c : ClockInner) : ClockOp → ClockInner
  | .play w => clockPlay c w
  | .pause w => clockPause c w
  | .setRate r w => clockSetRate c r w

/-- Wall instants of the interleaved operations lie, in order, between the two reads. -/
def opsChained (w1 : Nat) : List ClockOp → Nat → Bool
  | [], w2 => decide (w1 ≤ w2)
  | op :: rest, w2 => decide (w1 ≤ clockOpTime op) && opsChained (clockOpTime op) rest w2

/-- Every `set_rate` in the list carries a positive rate. -/
def opsRatesPos : List ClockOp → Bool
  | [] => true
  | .setRate r _ :: rest => decide (0 < r) && opsRatesPos rest
  | .play _ :: rest => opsRatesPos rest
  | .pause _ :: rest => opsRatesPos rest

/-! ### `src/core/types.rs` -/

inductive PlaybackState where
  | Idle | Opening | Playing | Paused | Seeking | Buffering | Stopped | Error
deriving DecidableEq

/-- `SubtitleFrame` (field order as in the source). -/
structure SubFrame where
  pts : Int
  duration : Int
  text : String
  endPts : Int
deriving DecidableEq

/-- The `MediaInfo` fields the controller logic branches on (`duration`,
`audio_codec`); the remaining probe fields are irrelevant to the claims. -/
structure MediaInfoM where
  duration : Int
  audioCodec : String
deriving DecidableEq

/-- `PlayerState`. -/
structure PlayerStateM where
  state : PlaybackState
  position : Int
  duration : Int
  volume : ℚ
  mediaInfo : Option MediaInfoM
deriving DecidableEq

/-- `PlayerState::default`. -/
def playerStateDefault : PlayerStateM :=
  { state := .Idle, position := 0, duration := 0, volume := 1, mediaInfo := none }

/-! ### Stable sorting (Rust `sort_by_key`) -/

def insertSorted (x : Int) : List Int → List Int
  | [] => [x]
  | y :: rest => if x ≤ y then x :: y :: rest else y :: insertSorted x rest

/-- Stable sort of PTS values (`sort_by_key(|f| f.pts)` on pure PTS lists). -/
def sortInts (l : List Int) : List Int := l.foldr insertSorted []

def insertSubByPts (x : SubFrame) : List SubFrame → List SubFrame
  | [] => [x]
  | y :: rest => if x.pts ≤ y.pts then x :: y :: rest else y :: insertSubByPts x rest

/-- Stable sort of subtitle frames by `pts`. -/
def sortSubsByPts (l : List SubFrame) : List SubFrame := l.foldr insertSubByPts []

/-! ### `src/player/manager.rs` — `PlaybackManager` controller state -/

structure ManagerState where
  pstate : PlayerStateM
  clock : ClockInner
  running : Bool
  isFirstAudioFrame : Bool
  seekPosition : Option (Int × Nat)
  needFlushDecoders : Bool
  currentFilePath : Option String
  demuxThreadH : Bool
  videoThreadH : Bool
  audioThreadH : Bool
  subtitleThreadH : Bool
  audioOutput : Option (List ℚ)
  audioFrameQueue : List Int
  videoFrameQueue : List Int
  subtitleFrameQueue : List SubFrame
  externalSubtitleFrames : List SubFrame
  seekTx : Option (List Int)
  demuxerThreadHandle : Option (List Int)
  isNetworkSource : Bool
deriving DecidableEq

/-- `PlaybackManager::new` at wall instant `w`. -/
def mgrNew (w : Nat) : ManagerState :=
  { pstate := playerStateDefault, clock := clockNew w, running := false,
    isFirstAudioFrame := true, seekPosition := none, needFlushDecoders := false,
    currentFilePath := none, demuxThreadH := false, videoThreadH := false,
    audioThreadH := false, subtitleThreadH := false, audioOutput := none,
    audioFrameQueue := [], videoFrameQueue := [], subtitleFrameQueue := [],
    externalSubtitleFrames := [], seekTx := none, demuxerThreadHandle := none,
    isNetworkSource := false }

/-- `PlaybackManager::get_state`: clones the state with `position` refreshed
from the clock. -/
def getStateM (m : ManagerState) (w : Nat) : PlayerStateM :=
  { m.pstate with position := clockNow m.clock w }

/-- `PlaybackManager::seek(position_ms)` at wall instant `w`.  The published
`SeekRequest` stores the target together with its age (0 ms at issue). -/
def seekM (m : ManagerState) (positionMs : Int) (w : Nat) : ManagerState :=
  -- step 1: publish the seek request
  let m := { m with seekPosition := some (positionMs, 0) }
  -- step 2: reset the first-audio-frame flag
  let m := { m with isFirstAudioFrame := true }
  -- step 3: clear the audio sink output buffer (when a sink exists)
  let m := { m with audioOutput := m.audioOutput.map (fun _ => []) }
  -- step 4: set the decoder-flush flag
  let m := { m with needFlushDecoders := true }
  -- step 5: drain the three frame queues
  let m := { m with videoFrameQueue := [], audioFrameQueue := [], subtitleFrameQueue := [] }
  -- step 6: pre-set the master clock
  let m := { m with clock := setTime m.clock positionMs w }
  -- step 7: record the position in the player state
  let m := { m with pstate := { m.pstate with position := positionMs } }
  -- step 8: send the seek command (DemuxerThread first, else the classic channel)
  match m.demuxerThreadHandle with
  | some cmds => { m with demuxerThreadHandle := some (cmds ++ [positionMs]) }
  | none =>
    match m.seekTx with
    | some cmds => { m with seekTx := some (cmds ++ [positionMs]) }
    | none => m

/-- `PlaybackManager::stop` at wall instant `w`: signal, stop the DemuxerThread,
join the four workers, stop the sink, drain queues and external cache, reset the
clock to 0, drop the seek channel, reset flags, state `Stopped` at position 0. -/
def stopM (m : ManagerState) (w : Nat) : ManagerState :=
  let m := { m with running := false }
  let m := { m with demuxerThreadHandle := none }
  let m := { m with demuxThreadH := false, videoThreadH := false,
                    audioThreadH := false, subtitleThreadH := false }
  let m := { m with audioOutput := none }
  let m := { m with audioFrameQueue := [], videoFrameQueue := [], subtitleFrameQueue := [] }
  let m := { m with externalSubtitleFrames := [] }
  let m := { m with clock := setTime m.clock 0 w }
  let m := { m with seekTx := none }
  let m := { m with needFlushDecoders := false }
  { m with pstate := { m.pstate with state := .Stopped, position := 0 } }

/-- `start_playback_threads` (classic architecture): sets `running`, installs a
fresh seek channel and spawns the demuxer plus one decode thread per decoder. -/
def startPlaybackThreadsM (m : ManagerState) (hasVideo hasAudio hasSubtitle : Bool) :
    ManagerState :=
  let m := { m with running := true }
  let m := { m with seekTx := some [] }
  let m := { m with demuxThreadH := true }
  let m := { m with videoThreadH := hasVideo }
  let m := { m with audioThreadH := hasAudio }
  { m with subtitleThreadH := hasSubtitle }

/-- `PlaybackManager::open` success path.  `Demuxer::open`, decoder construction
and external-subtitle file discovery are I/O; their outcomes enter as the
parameters `info`, `ext` (parsed external cues, `[]` when none were found) and
the three decoder-presence flags. -/
def openM (m : ManagerState) (path : String) (info : MediaInfoM)
    (ext : List SubFrame) (hasVideo hasAudio hasSubtitle : Bool) (w : Nat) :
    ManagerState :=
  let m := stopM m w
  let m := { m with isNetworkSource := false }
  let m := { m with isFirstAudioFrame := true }
  let m := { m with seekPosition := none }
  let m := { m with pstate := { m.pstate with state := .Opening } }
  let m := { m with currentFilePath := some path }
  let m := { m with pstate :=
    { m.pstate with duration := info.duration, mediaInfo := some info, state := .Paused } }
  let m := { m with audioOutput := if info.audioCodec ≠ "none" then some [] else none }
  let m := { m with externalSubtitleFrames :=
                      if ext.isEmpty then m.externalSubtitleFrames else sortSubsByPts ext }
  startPlaybackThreadsM m hasVideo hasAudio hasSubtitle

/-- `PlaybackManager::play`: when `Stopped`, re-open the retained path first
(the I/O outcomes parameterized as in `openM`); then start the clock and set
`Playing`. -/
def playM (m : ManagerState) (info : MediaInfoM) (ext : List SubFrame)
    (hasVideo hasAudio hasSubtitle : Bool) (w : Nat) : Except String ManagerState :=
  if m.pstate.state = .Stopped then
    match m.currentFilePath with
    | some path =>
      let m := openM m path info ext hasVideo hasAudio hasSubtitle w
      let m := { m with clock := clockPlay m.clock w }
      .ok { m with pstate := { m.pstate with state := .Playing } }
    | none => .error "no open file"
  else
    let m := { m with clock := clockPlay m.clock w }
    .ok { m with pstate := { m.pstate with state := .Playing } }

/-- `PlaybackManager::pause`: pause the clock, clear the sink buffer, `Paused`. -/
def pauseM (m : ManagerState) (w : Nat) : ManagerState :=
  let m := { m with clock := clockPause m.clock w }
  let m := { m with audioOutput := m.audioOutput.map (fun _ => []) }
  { m with pstate := { m.pstate with state := .Paused } }

/-- `PlaybackManager::set_volume`: clamp to [0, 1]. -/
def setVolumeM (m : ManagerState) (v : ℚ) : ManagerState :=
  { m with pstate := { m.pstate with volume := max 0 (min v 1) } }

/-- `PlaybackManager::attach_demuxer` success path (classic threads). -/
def attachDemuxerM (m : ManagerState) (info : MediaInfoM) (isNetwork : Bool)
    (hasVideo hasAudio hasSubtitle : Bool) (w : Nat) : ManagerState :=
  let m := stopM m w
  let m := { m with isNetworkSource := isNetwork }
  let m := { m with isFirstAudioFrame := true }
  let m := { m with seekPosition := none }
  let m := { m with pstate :=
    { m.pstate with state := .Opening, duration := info.duration, mediaInfo := some info } }
  let m := { m with audioOutput := if info.audioCodec ≠ "none" then some [] else none }
  let m := startPlaybackThreadsM m hasVideo hasAudio hasSubtitle
  { m with pstate := { m.pstate with state := .Paused } }

/-- `start_playback_threads_with_demuxer_thread`: DemuxerThread mode spawns the
video/audio decode threads only; no classic seek channel, no subtitle thread. -/
def startPlaybackThreadsDtM (m : ManagerState) (hasVideo hasAudio : Bool) :
    ManagerState :=
  let m := { m with running := true }
  let m := { m with demuxerThreadHandle := some [] }
  let m := { m with videoThreadH := hasVideo }
  { m with audioThreadH := hasAudio }

/-- `PlaybackManager::attach_demuxer_async` success path: `Opening`, spawn
DemuxerThread mode, `Buffering` during the fill wait, then `Paused`. -/
def attachDemuxerAsyncM (m : ManagerState) (info : MediaInfoM)
    (hasVideo hasAudio : Bool) (w : Nat) : ManagerState :=
  let m := stopM m w
  let m := { m with isNetworkSource := true }
  let m := { m with isFirstAudioFrame := true }
  let m := { m with seekPosition := none }
  let m := { m with pstate :=
    { m.pstate with state := .Opening, duration := info.duration, mediaInfo := some info } }
  let m := { m with audioOutput := if info.audioCodec ≠ "none" then some [] else none }
  let m := startPlaybackThreadsDtM m hasVideo hasAudio
  let m := { m with pstate := { m.pstate with state := .Buffering } }
  { m with pstate := { m.pstate with state := .Paused } }

/-- A public controller operation, with the I/O outcomes it depends on. -/
inductive MgrOp where
  | openOp (path : String) (info : MediaInfoM) (ext : List SubFrame)
           (hasVideo hasAudio hasSubtitle : Bool) (w : Nat)
  | playOp (info : MediaInfoM) (ext : List SubFrame)
           (hasVideo hasAudio hasSubtitle : Bool) (w : Nat)
  | pauseOp (w : Nat)
  | stopOp (w : Nat)
  | seekOp (t : Int) (w : Nat)
  | setVolumeOp (v : ℚ)
  | attachOp (info : MediaInfoM) (isNetwork hasVideo hasAudio hasSubtitle : Bool) (w : Nat)
  | attachAsyncOp (info : MediaInfoM) (hasVideo hasAudio : Bool) (w : Nat)

/-- Apply one controller operation (a failed `play` leaves the state unchanged,
as the code returns the error before mutating anything). -/
def applyMgrOp (m : ManagerState) : MgrOp → ManagerState
  | .openOp path info ext hv ha hs w => openM m path info ext hv ha hs w
  | .playOp info ext hv ha hs w =>
    match playM m info ext hv ha hs w with
    | .ok m2 => m2
    | .error _ => m
  | .pauseOp w => pauseM m w
  | .stopOp w => stopM m w
  | .seekOp t w => seekM m t w
  | .setVolumeOp v => setVolumeM m v
  | .attachOp info isNet hv ha hs w => attachDemuxerM m info isNet hv ha hs w
  | .attachAsyncOp info hv ha w => attachDemuxerAsyncM m info hv ha w

/-! ### Decode-loop per-frame steps (seek filter), `src/player/manager.rs` -/

/-- The state a decode loop shares with the controller: the `SeekRequest` slot
(target, age in ms at observation), the first-audio-frame flag, the clock, and
the output frame queue (PTS values). -/
structure AudioLoopState where
  seekPos : Option (Int × Nat)
  firstAudioFlag : Bool
  clock : ClockInner
  queue : List Int
deriving DecidableEq

/-- Per-frame step of the classic audio decode loop (`start_playback_threads`):
2 s watchdog, PTS window `[target − 500, target + 10000]`, slot cleared and
clock left alone on the first in-window frame, else first-frame `set_time`. -/
def audioFrameStep (st : AudioLoopState) (pts : Int) (w : Nat) : AudioLoopState :=
  let skipInfo : Bool × Bool × Option (Int × Nat) :=
    match st.seekPos with
    | none => (false, false, none)
    | some (target, elapsed) =>
      if 2000 < elapsed then (false, false, none)
      else if pts < target - 500 then (true, false, some (target, elapsed))
      else if target + 10000 < pts then (true, false, some (target, elapsed))
      else (false, true, none)
  let st := { st with seekPos := skipInfo.2.2 }
  if skipInfo.1 then st
  else if skipInfo.2.1 then
    { st with firstAudioFlag := false, queue := st.queue ++ [pts] }
  else if st.firstAudioFlag then
    { st with firstAudioFlag := false, clock := setTime st.clock pts w,
              queue := st.queue ++ [pts] }
  else { st with queue := st.queue ++ [pts] }

/-- Per-frame step of the classic video decode loop: window
`[target − 1000, target + 10000]`; only the watchdog clears the slot. -/
def videoFrameStepClassic (seekPos : Option (Int × Nat)) (queue : List Int)
    (pts : Int) : Option (Int × Nat) × List Int :=
  match seekPos with
  | none => (none, queue ++ [pts])
  | some (target, elapsed) =>
    if 2000 < elapsed then (none, queue ++ [pts])
    else if pts < target - 1000 then (some (target, elapsed), queue)
    else if target + 10000 < pts then (some (target, elapsed), queue)
    else (some (target, elapsed), queue ++ [pts])

/-- Per-frame step of the DemuxerThread-mode audio decode loop: only frames with
`pts < target − 500` are skipped, the slot is never written, and the
first-frame flag still triggers `set_time`. -/
def audioFrameStepDT (st : AudioLoopState) (pts : Int) (w : Nat) : AudioLoopState :=
  let shouldSkip : Bool :=
    match st.seekPos with
    | none => false
    | some (target, elapsed) =>
      if 2000 < elapsed then false else decide (pts < target - 500)
  if shouldSkip then st
  else if st.firstAudioFlag then
    { st with firstAudioFlag := false, clock := setTime st.clock pts w,
              queue := st.queue ++ [pts] }
  else { st with queue := st.queue ++ [pts] }

/-- Per-frame step of the DemuxerThread-mode video decode loop. -/
def videoFrameStepDT (seekPos : Option (Int × Nat)) (queue : List Int)
    (pts : Int) : List Int :=
  let shouldSkip : Bool :=
    match seekPos with
    | none => false
    | some (target, elapsed) =>
      if 2000 < elapsed then false else decide (pts < target - 1000)
  if shouldSkip then queue else queue ++ [pts]

/-! ### `PlaybackManager::get_frame_for_time` -/

/-- The collection loop of `get_frame_for_time`: returns
`(best, frames_to_keep, future_frames, unprocessed remainder)`. -/
def gfftScan (now : Int) :
    List Int → Nat → Option Int → List Int → List Int →
    Option Int × List Int × List Int × List Int
  | q, checked, best, keep, future =>
    if 200 ≤ checked then (best, keep, future, q)
    else
      match q with
      | [] => (best, keep, future, [])
      | f :: rest =>
        if f < now - 1000 then gfftScan now rest (checked + 1) best keep future
        else if f ≤ now then
          match best with
          | some b =>
            if b < f then gfftScan now rest (checked + 1) (some f) (keep ++ [b]) future
            else gfftScan now rest (checked + 1) (some b) (keep ++ [f]) future
          | none => gfftScan now rest (checked + 1) (some f) keep future
        else
          if future.length < 30 then
            gfftScan now rest (checked + 1) best keep (future ++ [f])
          else gfftScan now rest (checked + 1) best keep future

/-- `PlaybackManager::get_frame_for_time`: the returned best frame plus the
rebuilt queue (unpopped remainder at the front, then sorted past frames, then
sorted future frames). -/
def getFrameForTime (now : Int) (q : List Int) : Option Int × List Int :=
  match gfftScan now q 0 none [] [] with
  | (best, keep, future, rest) => (best, rest ++ sortInts keep ++ sortInts future)

/-! ### `PlaybackManager::get_current_frame` and the GUI-side three-tier pull
(`src/app/mod.rs`, `render_video_area`) -/

/-- The oversize-queue cleanup inside `get_current_frame`: pop up to 300 frames,
keep at most 50 that are no older than 1 s, sort and push them back behind the
unpopped remainder. -/
def cleanupExpiredFrames (now : Int) (q : List Int) : List Int :=
  let processed := q.take 300
  let rest := q.drop 300
  let kept := (processed.filter (fun pts => decide (now - 1000 ≤ pts))).take 50
  rest ++ sortInts kept

/-- `PlaybackManager::get_current_frame` (cleanup only when more than 80 frames
are queued), returning the popped frame and the remaining queue. -/
def getCurrentFrame (now : Int) (q : List Int) : Option Int × List Int :=
  let q2 := if 80 < q.length then cleanupExpiredFrames now q else q
  match q2 with
  | [] => (none, [])
  | f :: rest => (some f, rest)

/-- The fast-jump loop of `render_video_area` (`for _ in 0..10`): pop frames,
holding a too-old frame (`pts < now − 80`) as provisional result and stopping
at the first in-range frame. -/
def fastJump (now : Int) : Nat → Option Int → List Int → Option Int × List Int
  | 0, latest, q => (latest, q)
  | fuel + 1, latest, q =>
    match getCurrentFrame now q with
    | (none, q2) => (latest, q2)
    | (some f, q2) =>
      if f < now - 80 then fastJump now fuel (some f) q2
      else (some f, q2)

/-- The frame-selection expression of `render_video_area`: given the clock time
`now`, the PTS of the currently displayed frame (if any) and the video frame
queue, produce the frame to display next (`none` = keep the current one) and
the remaining queue. -/
def renderFrameSelect (now : Int) (currentFramePts : Option Int) (q : List Int) :
    Option Int × List Int :=
  match currentFramePts with
  | none => getCurrentFrame now q
  | some pts =>
    let timeDiff := now - pts
    let updateThreshold : Int :=
      if 150 < timeDiff then 0 else if 50 < timeDiff then 30 else 40
    if updateThreshold ≤ timeDiff then
      if 150 < timeDiff then fastJump now 10 none q
      else getCurrentFrame now q
    else (none, q)

/-! ### `PlaybackManager::get_current_subtitle` / `get_external_subtitle` -/

/-- The scanning loop of `get_current_subtitle`: pops frames (at most 100
processed), tracking the best covering cue and the pending frames, in push
order.  Returns `(best, pending)`. -/
def subScan (now : Int) :
    List SubFrame → Nat → Option SubFrame → List SubFrame →
    Option SubFrame × List SubFrame
  | [], _, best, pending => (best, pending)
  | f :: rest, checked, best, pending =>
    if 100 < checked + 1 then (best, pending ++ [f])
    else if f.pts ≤ now ∧ now < f.endPts then
      match best with
      | some b =>
        if b.pts < f.pts then subScan now rest (checked + 1) (some f) (pending ++ [b, f])
        else subScan now rest (checked + 1) (some b) (pending ++ [f])
      | none => subScan now rest (checked + 1) (some f) (pending ++ [f])
    else if now < f.pts then subScan now rest (checked + 1) best (pending ++ [f])
    else subScan now rest (checked + 1) best pending

/-- `PlaybackManager::get_external_subtitle`: first covering cue of the
(pre-sorted) external list, stopping early at the first future cue. -/
def getExternalSubtitle (now : Int) : List SubFrame → Option SubFrame
  | [] => none
  | f :: rest =>
    if f.pts ≤ now ∧ now < f.endPts then some f
    else if now < f.pts then none
    else getExternalSubtitle now rest

/-- `PlaybackManager::get_current_subtitle`: scan the embedded queue, rebuild it
(keeping the best cue and the not-yet-due cues), and fall back to the external
cache when no embedded cue matched. -/
def getCurrentSubtitle (now : Int) (q : List SubFrame) (ext : List SubFrame) :
    Option SubFrame × List SubFrame :=
  match subScan now q 0 none [] with
  | (best, pending) =>
    let keep := pending.filter (fun fr =>
      match best with
      | some b => decide (fr.pts = b.pts) || decide (now < fr.pts)
      | none => true)
    match best with
    | some b => (some b, keep)
    | none => (getExternalSubtitle now ext, keep)

/-! ### `SubtitleDecoder::clean_subtitle_text` (`src/player/decoder.rs`) -/

/-- The `<`-tag lookahead of `clean_subtitle_text`: consume whitespace, `/` and
ASCII-alphabetic characters; report whether a closing `>` was reached (consumed)
and return the unconsumed remainder. -/
def tagScan : List Char → Bool × List Char
  | [] => (false, [])
  | c :: rest =>
    if c = '>' then (true, rest)
    else if c.isWhitespace || decide (c = '/') then tagScan rest
    else if c.isAlpha then tagScan rest
    else (false, c :: rest)

/-- The character loop of `clean_subtitle_text` (first pass).  `fuel` is only a
termination device: each step consumes at least the head character, so
`fuel = cs.length` never runs out.  Note the faithful quirks: inside an ASS tag
a backslash or a `<` is pushed to the output, and the `\N`/`\n`/`\r`/`\t`
escapes are handled only outside tags. -/
def cleanSubLoop : Nat → Bool → List Char → List Char
  | _, _, [] => []
  | 0, _, _ :: _ => []
  | fuel + 1, inTag, c :: rest =>
    if c = '{' then cleanSubLoop fuel true rest
    else if c = '}' then cleanSubLoop fuel false rest
    else if c = '<' then
      if inTag then c :: cleanSubLoop fuel inTag rest
      else
        match tagScan rest with
        | (found, rest2) =>
          (if found then [] else ['<']) ++ cleanSubLoop fuel inTag rest2
    else if c = '\\' then
      if inTag then c :: cleanSubLoop fuel inTag rest
      else
        match rest with
        | 'N' :: rest2 => '\n' :: cleanSubLoop fuel inTag rest2
        | 'n' :: rest2 => '\n' :: cleanSubLoop fuel inTag rest2
        | 'r' :: rest2 => cleanSubLoop fuel inTag rest2
        | 't' :: rest2 => '\t' :: cleanSubLoop fuel inTag rest2
        | _ => c :: cleanSubLoop fuel inTag rest
    else if c = '\r' then cleanSubLoop fuel inTag rest
    else if inTag then cleanSubLoop fuel inTag rest
    else c :: cleanSubLoop fuel inTag rest

def cleanSubGo (inTag : Bool) (cs : List Char) : List Char :=
  cleanSubLoop cs.length inTag cs

/-- Rust `str::split('\n')` / generic single-char split: non-overlapping,
keeping empty segments, always at least one segment. -/
def rsSplit (sep : Char) : List Char → List (List Char)
  | [] => [[]]
  | c :: rest =>
    if c = sep then [] :: rsSplit sep rest
    else
      match rsSplit sep rest with
      | h :: t => (c :: h) :: t
      | [] => [[c]]

/-- Rust `str::trim` (whitespace from both ends; Lean's `Char.isWhitespace`
covers the ASCII whitespace relevant here). -/
def trimChars (cs : List Char) : List Char :=
  ((cs.dropWhile Char.isWhitespace).reverse.dropWhile Char.isWhitespace).reverse

/-- Rust `str::lines`: split on `'\n'`, drop one trailing empty segment, strip a
trailing `'\r'` from each line. -/
def rustLines (cs : List Char) : List (List Char) :=
  let parts := rsSplit '\n' cs
  let parts := match parts.getLast? with
    | some [] => parts.dropLast
    | _ => parts
  parts.map (fun l =>
    match l.getLast? with
    | some c => if c = '\r' then l.dropLast else l
    | none => l)

/-- `String::replace("\r\n", "\n")` (non-overlapping, left to right). -/
def replaceCrlf : List Char → List Char
  | '\r' :: '\n' :: rest => '\n' :: replaceCrlf rest
  | c :: rest => c :: replaceCrlf rest
  | [] => []

/-- `String::replace('\r', "\n")`. -/
def replaceCr (cs : List Char) : List Char :=
  cs.map (fun c => if c = '\r' then '\n' else c)

/-- `Vec::join("\n")`. -/
def joinLines : List (List Char) → List Char
  | [] => []
  | [l] => l
  | l :: rest => l ++ '\n' :: joinLines rest

/-- The final pass of `clean_subtitle_text`: drop newlines beyond two in a row. -/
def squeezeNewlines : Nat → List Char → List Char
  | _, [] => []
  | consecutive, c :: rest =>
    if c = '\n' then
      if consecutive + 1 ≤ 2 then c :: squeezeNewlines (consecutive + 1) rest
      else squeezeNewlines (consecutive + 1) rest
    else c :: squeezeNewlines 0 rest

/-- `SubtitleDecoder::clean_subtitle_text`. -/
def cleanSubtitleText (s : String) : String :=
  if s.isEmpty then "" else
  let cs := cleanSubGo false s.toList
  let cs := replaceCr (replaceCrlf cs)
  let ls := ((rustLines cs).map trimChars).filter (fun l => ! l.isEmpty)
  let cs := joinLines ls
  String.mk (trimChars (squeezeNewlines 0 cs))

/-! ### `ExternalSubtitleParser` (`src/player/external_subtitle.rs`) -/

/-- `ExternalSubtitleParser::clean_ass_text`.  Faithful quirk: the `\N`→newline
branch is guarded by `!in_tag` inside the `\\ if in_tag` arm and hence dead; a
backslash outside a tag falls through to the plain-character arm. -/
def cleanAssGo (inTag : Bool) : List Char → List Char
  | [] => []
  | c :: rest =>
    if c = '{' then cleanAssGo true rest
    else if c = '}' then cleanAssGo false rest
    else if inTag && decide (c = '\\') then
      match rest with
      | [] => []
      | n :: rest2 =>
        (if (n = 'N' ∨ n = 'n') ∧ inTag = false then ['\n'] else []) ++
          cleanAssGo inTag rest2
    else if inTag = false then c :: cleanAssGo inTag rest
    else cleanAssGo inTag rest

/-- `ExternalSubtitleParser::clean_ass_text`. -/
def cleanAssText (s : String) : String :=
  String.mk (trimChars (cleanAssGo false s.toList))

/-- Numeric value of a digit string (the accumulator loop of integer parsing). -/
def digitsVal (ds : List Char) : Nat :=
  ds.foldl (fun a c => 10 * a + (c.toNat - 48)) 0

def i64Max : Int := 9223372036854775807

/-- Rust `str::parse::<i64>`: optional sign, then one or more ASCII digits,
overflow-checked against the i64 range. -/
def rustParseI64 (cs : List Char) : Option Int :=
  match cs with
  | '+' :: rest =>
    if rest ≠ [] ∧ rest.all Char.isDigit then
      if (digitsVal rest : Int) ≤ i64Max then some (digitsVal rest) else none
    else none
  | '-' :: rest =>
    if rest ≠ [] ∧ rest.all Char.isDigit then
      if (digitsVal rest : Int) ≤ i64Max + 1 then some (-(digitsVal rest : Int)) else none
    else none
  | _ =>
    if cs ≠ [] ∧ cs.all Char.isDigit then
      if (digitsVal cs : Int) ≤ i64Max then some (digitsVal cs) else none
    else none

/-- `ExternalSubtitleParser::parse_srt_timestamp`: split on `','` (exactly two
parts), parse the milliseconds, split the time part on `':'` (exactly three
parts), combine. -/
def parseSrtTimestamp (cs : List Char) : Option Int :=
  match rsSplit ',' cs with
  | [timePart, msPart] =>
    match rustParseI64 msPart with
    | none => none
    | some ms =>
      match rsSplit ':' timePart with
      | [hS, mS, sS] =>
        match rustParseI64 hS with
        | none => none
        | some h =>
          match rustParseI64 mS with
          | none => none
          | some mi =>
            match rustParseI64 sS with
            | none => none
            | some s => some (h * 3600000 + mi * 60000 + s * 1000 + ms)
      | _ => none
  | _ => none

/-- `ExternalSubtitleParser::parse_ass_timestamp`: split on `'.'`, centiseconds
scaled by 10. -/
def parseAssTimestamp (cs : List Char) : Option Int :=
  match rsSplit '.' cs with
  | [timePart, ccPart] =>
    match rustParseI64 ccPart with
    | none => none
    | some cc =>
      match rsSplit ':' timePart with
      | [hS, mS, sS] =>
        match rustParseI64 hS with
        | none => none
        | some h =>
          match rustParseI64 mS with
          | none => none
          | some mi =>
            match rustParseI64 sS with
            | none => none
            | some s => some (h * 3600000 + mi * 60000 + s * 1000 + cc * 10)
      | _ => none
  | _ => none

/-- `ExternalSubtitleParser::parse_vtt_timestamp`: split on `'.'`, then accept a
2-component (`MM:SS`) or 3-component (`HH:MM:SS`) time part. -/
def parseVttTimestamp (cs : List Char) : Option Int :=
  match rsSplit '.' cs with
  | [timePart, msPart] =>
    match rustParseI64 msPart with
    | none => none
    | some ms =>
      match rsSplit ':' timePart with
      | [mS, sS] =>
        match rustParseI64 mS with
        | none => none
        | some mi =>
          match rustParseI64 sS with
          | none => none
          | some s => some (mi * 60000 + s * 1000 + ms)
      | [hS, mS, sS] =>
        match rustParseI64 hS with
        | none => none
        | some h =>
          match rustParseI64 mS with
          | none => none
          | some mi =>
            match rustParseI64 sS with
            | none => none
            | some s => some (h * 3600000 + mi * 60000 + s * 1000 + ms)
      | _ => none
  | _ => none

/-- Spec shape `HH:MM:SS,mmm` (exact widths, digits only), from the spec text;
used to compare the implemented parser against the stated accepted shape. -/
def srtShapeSpec (cs : List Char) : Bool :=
  match cs with
  | [h1, h2, c1, m1, m2, c2, s1, s2, c3, d1, d2, d3] =>
    h1.isDigit && h2.isDigit && decide (c1 = ':') && m1.isDigit && m2.isDigit &&
    decide (c2 = ':') && s1.isDigit && s2.isDigit && decide (c3 = ',') &&
    d1.isDigit && d2.isDigit && d3.isDigit
  | _ => false

/-- One step of the specification-level fold that `subScan` computes for its
best cue: keep the covering cue with the larger `pts` (first one on ties). -/
def bestStep (now : Int) (acc : Option SubFrame) (f : SubFrame) : Option SubFrame :=
  if f.pts ≤ now ∧ now < f.endPts then
    match acc with
    | some b => if b.pts < f.pts then some f else some b
    | none => some f
  else acc

/-- The best covering cue of a queue, as a fold. -/
def bestFold (now : Int) (acc : Option SubFrame) (q : List SubFrame) : Option SubFrame :=
  q.foldl (bestStep now) acc

/-! ### Concrete fixtures used by the witness theorems -/

/-- A freshly created manager holding an audio sink and a DemuxerThread. -/
def mgrC2 : ManagerState :=
  { mgrNew 0 with audioOutput := some [], demuxerThreadHandle := some [] }

/-- A freshly created manager that has a retained source path. -/
def mgrC9 : ManagerState :=
  { mgrNew 0 with currentFilePath := some "video.mp4" }

/-! ## Helper lemmas -/

theorem qFloor_eq_floor (q : ℚ) : qFloor q = ⌊q⌋ := by
  rw [Rat.floor_def]; rfl

theorem qFloor_mono {a b : ℚ} (h : a ≤ b) : qFloor a ≤ qFloor b := by
  rw [qFloor_eq_floor, qFloor_eq_floor]
  exact Int.floor_le_floor h

theorem truncQ_of_nonneg {q : ℚ} (h : 0 ≤ q) : truncQ q = qFloor q := by
  simp [truncQ, h]

theorem truncQ_zero : truncQ 0 = 0 := by decide

theorem truncQ_zero_mul (r : ℚ) : truncQ (((0 : ℕ) : ℚ) * r) = 0 := by
  have h : ((0 : ℕ) : ℚ) * r = 0 := by push_cast; ring
  rw [h, truncQ_zero]

theorem truncQ_mul_mono {r : ℚ} (hr : 0 ≤ r) {e1 e2 : ℕ} (h : e1 ≤ e2) :
    truncQ ((e1 : ℚ) * r) ≤ truncQ ((e2 : ℚ) * r) := by
  have h1 : (0 : ℚ) ≤ (e1 : ℚ) * r := mul_nonneg (by positivity) hr
  have h2 : (0 : ℚ) ≤ (e2 : ℚ) * r := mul_nonneg (by positivity) hr
  rw [truncQ_of_nonneg h1, truncQ_of_nonneg h2]
  exact qFloor_mono (mul_le_mul_of_nonneg_right (by exact_mod_cast h) hr)

theorem clockNow_mono {c : ClockInner} (hr : 0 ≤ c.playbackRate)
    {w1 w2 : Nat} (h : w1 ≤ w2) : clockNow c w1 ≤ clockNow c w2 := by
  unfold clockNow
  by_cases hp : c.paused
  · simp [hp]
  · simp only [hp, if_false, Bool.false_eq_true]
    exact add_le_add_left (truncQ_mul_mono hr (Nat.sub_le_sub_right h _)) _

theorem clockNow_setTime_self (c : ClockInner) (pts : Int) (w : Nat) :
    clockNow (setTime c pts w) w = pts := by
  unfold clockNow setTime
  by_cases hp : c.paused
  · simp [hp]
  · simp [hp, Nat.sub_self, truncQ_zero_mul, truncQ_zero]

theorem clockNow_play_setTime_self (c : ClockInner) (pts : Int) (w : Nat) :
    clockNow (clockPlay (setTime c pts w) w) w = pts := by
  unfold clockPlay setTime clockNow
  by_cases hp : c.paused
  · simp [hp, Nat.sub_self, truncQ_zero_mul, truncQ_zero]
  · simp [hp, Nat.sub_self, truncQ_zero_mul, truncQ_zero]

theorem clockOp_continuous (c : ClockInner) (op : ClockOp) :
    clockNow (applyClockOp c op) (clockOpTime op) = clockNow c (clockOpTime op) := by
  cases op with
  | play w =>
    unfold applyClockOp clockPlay clockOpTime
    by_cases hp : c.paused
    · simp [hp, clockNow, Nat.sub_self, truncQ_zero_mul, truncQ_zero]
    · simp [hp]
  | pause w =>
    unfold applyClockOp clockPause clockOpTime
    by_cases hp : c.paused
    · simp [hp]
    · simp [hp, clockNow]
  | setRate r w =>
    unfold applyClockOp clockSetRate clockOpTime
    by_cases hp : c.paused
    · simp [hp, clockNow]
    · simp [hp, clockNow, Nat.sub_self, truncQ_zero_mul, truncQ_zero]

theorem applyClockOp_rate_nonneg {c : ClockInner} (hc : 0 ≤ c.playbackRate)
    {op : ClockOp} (hop : ∀ r w, op = ClockOp.setRate r w → 0 ≤ r) :
    0 ≤ (applyClockOp c op).playbackRate := by
  cases op with
  | play w =>
    unfold applyClockOp clockPlay
    by_cases hp : c.paused <;> simp [hp, hc]
  | pause w =>
    unfold applyClockOp clockPause
    by_cases hp : c.paused <;> simp [hp, hc]
  | setRate r w =>
    unfold applyClockOp clockSetRate
    by_cases hp : c.paused <;> simp [hp, hop r w rfl]

theorem clock_mono_ops (ops : List ClockOp) : ∀ (c : ClockInner) (w1 w2 : Nat),
    0 ≤ c.playbackRate → opsChained w1 ops w2 = true → opsRatesPos ops = true →
    clockNow c w1 ≤ clockNow (ops.foldl applyClockOp c) w2 := by
  induction ops with
  | nil =>
    intro c w1 w2 hr hch _
    simp only [opsChained, decide_eq_true_eq] at hch
    exact clockNow_mono hr hch
  | cons op rest ih =>
    intro c w1 w2 hr hch hpos
    simp only [opsChained, Bool.and_eq_true, decide_eq_true_eq] at hch
    have hposHead : ∀ r w, op = ClockOp.setRate r w → 0 ≤ r := by
      intro r w hop
      subst hop
      simp only [opsRatesPos, Bool.and_eq_true, decide_eq_true_eq] at hpos
      exact le_of_lt hpos.1
    have hposRest : opsRatesPos rest = true := by
      cases op <;> simp only [opsRatesPos, Bool.and_eq_true] at hpos <;>
        first | exact hpos.2 | exact hpos
    calc clockNow c w1
        ≤ clockNow c (clockOpTime op) := clockNow_mono hr hch.1
      _ = clockNow (applyClockOp c op) (clockOpTime op) :=
          (clockOp_continuous c op).symm
      _ ≤ clockNow ((op :: rest).foldl applyClockOp c) w2 := by
          simpa using ih (applyClockOp c op) (clockOpTime op) w2
            (applyClockOp_rate_nonneg hr hposHead) hch.2 hposRest

/-! ## C6 -/

/-- C6: between two reads of the master clock with no intervening `set_time`,
with a positive playback rate (and every interleaved `set_rate` positive), the
second read is at least the first: `play`, `pause` and `set_rate` preserve
monotonicity, and each of them leaves `now()` continuous at its wall instant
(they re-anchor `base_pts`/`base_instant` or snapshot `paused_at`). -/
theorem c6_clock_monotonic (c : ClockInner) (ops : List ClockOp) (w1 w2 : Nat)
    (hr : 0 < c.playbackRate) (hch : opsChained w1 ops w2 = true)
    (hpos : opsRatesPos ops = true) :
    clockNow c w1 ≤ clockNow (ops.foldl applyClockOp c) w2 ∧
    ∀ (c2 : ClockInner) (op : ClockOp),
      clockNow (applyClockOp c2 op) (clockOpTime op) = clockNow c2 (clockOpTime op) :=
  ⟨clock_mono_ops ops c w1 w2 (le_of_lt hr) hch hpos,
   fun c2 op => clockOp_continuous c2 op⟩

/-- C6 witness: a concrete clock trace (read at 3, play at 4, pause at 6,
rate change at 7, read at 9). -/
theorem c6_witness :
    (0 : ℚ) < (clockNew 0).playbackRate ∧
    opsChained 3 [ClockOp.play 4, ClockOp.pause 6, ClockOp.setRate 2 7] 9 = true ∧
    opsRatesPos [ClockOp.play 4, ClockOp.pause 6, ClockOp.setRate 2 7] = true ∧
    (clockNow (clockNew 0) 3 ≤
      clockNow ([ClockOp.play 4, ClockOp.pause 6,
        ClockOp.setRate 2 7].foldl applyClockOp (clockNew 0)) 9 ∧
     ∀ (c2 : ClockInner) (op : ClockOp),
       clockNow (applyClockOp c2 op) (clockOpTime op) = clockNow c2 (clockOpTime op)) :=
  ⟨by decide, by decide, by decide,
   c6_clock_monotonic (clockNew 0) [ClockOp.play 4, ClockOp.pause 6, ClockOp.setRate 2 7]
     3 9 (by decide) (by decide) (by decide)⟩

/-! ## C2 -/

/-- C2: when `seek(target)` returns (controller steps only), the master clock
reads the target, `get_state().position` reflects it, the three frame queues
are drained, the sink buffer (when a sink exists) is cleared, and the
`Seek(target)` command has been delivered to the demuxer reader (DemuxerThread
when present, else the classic seek channel). -/
theorem c2_seek_postconditions (m : ManagerState) (t : Int) (w : Nat) :
    clockNow (seekM m t w).clock w = t ∧
    (getStateM (seekM m t w) w).position = t ∧
    (seekM m t w).videoFrameQueue = [] ∧
    (seekM m t w).audioFrameQueue = [] ∧
    (seekM m t w).subtitleFrameQueue = [] ∧
    (m.audioOutput.isSome = true → (seekM m t w).audioOutput = some []) ∧
    (∀ cs, m.demuxerThreadHandle = some cs →
      (seekM m t w).demuxerThreadHandle = some (cs ++ [t])) ∧
    (m.demuxerThreadHandle = none → ∀ cs, m.seekTx = some cs →
      (seekM m t w).seekTx = some (cs ++ [t])) := by
  have hclock : (seekM m t w).clock = setTime m.clock t w := by
    unfold seekM
    rcases m.demuxerThreadHandle with _ | cs
    · rcases m.seekTx with _ | cs <;> simp
    · simp
  refine ⟨?_, ?_, ?_, ?_, ?_, ?_, ?_, ?_⟩
  · rw [hclock, clockNow_setTime_self]
  · rw [getStateM, hclock, clockNow_setTime_self]
  · unfold seekM
    rcases m.demuxerThreadHandle with _ | cs
    · rcases m.seekTx with _ | cs <;> simp
    · simp
  · unfold seekM
    rcases m.demuxerThreadHandle with _ | cs
    · rcases m.seekTx with _ | cs <;> simp
    · simp
  · unfold seekM
    rcases m.demuxerThreadHandle with _ | cs
    · rcases m.seekTx with _ | cs <;> simp
    · simp
  · intro hsink
    rcases hout : m.audioOutput with _ | buf
    · rw [hout] at hsink; simp at hsink
    · unfold seekM
      rcases m.demuxerThreadHandle with _ | cs
      · rcases m.seekTx with _ | cs <;> simp [hout]
      · simp [hout]
  · intro cs hdt
    unfold seekM
    simp [hdt]
  · intro hdt cs htx
    unfold seekM
    simp [hdt, htx]

/-- C2 witness: a seek on a manager holding a sink and a DemuxerThread. -/
theorem c2_witness :
    mgrC2.audioOutput.isSome = true ∧
    mgrC2.demuxerThreadHandle = some [] ∧
    (clockNow (seekM mgrC2 42 5).clock 5 = 42 ∧
     (getStateM (seekM mgrC2 42 5) 5).position = 42 ∧
     (seekM mgrC2 42 5).videoFrameQueue = [] ∧
     (seekM mgrC2 42 5).audioFrameQueue = [] ∧
     (seekM mgrC2 42 5).subtitleFrameQueue = [] ∧
     (mgrC2.audioOutput.isSome = true → (seekM mgrC2 42 5).audioOutput = some []) ∧
     (∀ cs, mgrC2.demuxerThreadHandle = some cs →
       (seekM mgrC2 42 5).demuxerThreadHandle = some (cs ++ [42])) ∧
     (mgrC2.demuxerThreadHandle = none → ∀ cs, mgrC2.seekTx = some cs →
       (seekM mgrC2 42 5).seekTx = some (cs ++ [42]))) :=
  ⟨rfl, rfl, c2_seek_postconditions mgrC2 42 5⟩

/-! ## C10 -/

theorem playM_ok_state {m m2 : ManagerState} {info : MediaInfoM} {ext : List SubFrame}
    {hv ha hs : Bool} {w : Nat}
    (hok : playM m info ext hv ha hs w = Except.ok m2) :
    m2.pstate.state = PlaybackState.Playing := by
  unfold playM at hok
  split at hok
  · rcases hpath : m.currentFilePath with _ | path
    · rw [hpath] at hok; simp at hok
    · rw [hpath] at hok
      simp only [Except.ok.injEq] at hok
      rw [← hok]
  · simp only [Except.ok.injEq] at hok
    rw [← hok]

theorem mgr_step_not_seeking (m : ManagerState) (op : MgrOp)
    (h : ¬ m.pstate.state = PlaybackState.Seeking) :
    ¬ (applyMgrOp m op).pstate.state = PlaybackState.Seeking := by
  cases op with
  | openOp path info ext hv ha hs w =>
    simp [applyMgrOp, openM, startPlaybackThreadsM]
  | playOp info ext hv ha hs w =>
    simp only [applyMgrOp]
    rcases hok : playM m info ext hv ha hs w with e | m2
    · exact h
    · rw [playM_ok_state hok]
      simp
  | pauseOp w => simp [applyMgrOp, pauseM]
  | stopOp w => simp [applyMgrOp, stopM]
  | seekOp t w =>
    simp only [applyMgrOp]
    unfold seekM
    rcases m.demuxerThreadHandle with _ | cs
    · rcases m.seekTx with _ | cs <;> simpa using h
    · simpa using h
  | setVolumeOp v => simpa [applyMgrOp, setVolumeM] using h
  | attachOp info isNet hv ha hs w =>
    simp [applyMgrOp, attachDemuxerM, startPlaybackThreadsM]
  | attachAsyncOp info hv ha w =>
    simp [applyMgrOp, attachDemuxerAsyncM, startPlaybackThreadsDtM]

theorem mgr_ops_not_seeking (ops : List MgrOp) : ∀ (m : ManagerState),
    ¬ m.pstate.state = PlaybackState.Seeking →
    ¬ (ops.foldl applyMgrOp m).pstate.state = PlaybackState.Seeking := by
  induction ops with
  | nil => intro m h; simpa using h
  | cons op rest ih =>
    intro m h
    simpa using ih (applyMgrOp m op) (mgr_step_not_seeking m op h)

/-- C10: no controller operation ever assigns `PlaybackState::Seeking` — every
state reachable from a fresh manager has a state field different from
`Seeking` — and `seek` rewrites the player state only in its `position` field
(the state field in particular is unchanged). -/
theorem c10_never_seeking :
    (∀ ops : List MgrOp,
      ¬ (ops.foldl applyMgrOp (mgrNew 0)).pstate.state = PlaybackState.Seeking) ∧
    (∀ (m : ManagerState) (t : Int) (w : Nat),
      (seekM m t w).pstate = { m.pstate with position := t }) := by
  constructor
  · intro ops
    exact mgr_ops_not_seeking ops (mgrNew 0) (by simp [mgrNew, playerStateDefault])
  · intro m t w
    unfold seekM
    rcases m.demuxerThreadHandle with _ | cs
    · rcases m.seekTx with _ | cs <;> simp
    · simp

/-- C10 witness: a concrete operation trace, and a concrete seek. -/
theorem c10_witness :
    ¬ ([MgrOp.seekOp 42 1, MgrOp.pauseOp 2].foldl applyMgrOp
        (mgrNew 0)).pstate.state = PlaybackState.Seeking ∧
    (seekM (mgrNew 0) 9 1).pstate = { (mgrNew 0).pstate with position := 9 } :=
  ⟨c10_never_seeking.1 [MgrOp.seekOp 42 1, MgrOp.pauseOp 2],
   c10_never_seeking.2 (mgrNew 0) 9 1⟩

/-! ## C9 -/

theorem stopM_state (m : ManagerState) (w : Nat) :
    (stopM m w).pstate.state = PlaybackState.Stopped := by
  simp [stopM]

theorem stopM_path (m : ManagerState) (w : Nat) :
    (stopM m w).currentFilePath = m.currentFilePath := by
  simp [stopM]

theorem stopM_clock (m : ManagerState) (w : Nat) :
    (stopM m w).clock = setTime m.clock 0 w := by
  simp [stopM]

theorem openM_clock (m : ManagerState) (path : String) (info : MediaInfoM)
    (ext : List SubFrame) (hv ha hs : Bool) (w : Nat) :
    (openM m path info ext hv ha hs w).clock = setTime m.clock 0 w := by
  simp [openM, startPlaybackThreadsM, stopM]

theorem openM_path (m : ManagerState) (path : String) (info : MediaInfoM)
    (ext : List SubFrame) (hv ha hs : Bool) (w : Nat) :
    (openM m path info ext hv ha hs w).currentFilePath = some path := by
  simp [openM, startPlaybackThreadsM]

theorem openM_running (m : ManagerState) (path : String) (info : MediaInfoM)
    (ext : List SubFrame) (hv ha hs : Bool) (w : Nat) :
    (openM m path info ext hv ha hs w).running = true := by
  simp [openM, startPlaybackThreadsM]

theorem playM_stopped_ok {m m3 : ManagerState} {p : String} {info : MediaInfoM}
    {ext : List SubFrame} {hv ha hs : Bool} {w : Nat}
    (hstate : m.pstate.state = PlaybackState.Stopped)
    (hpath : m.currentFilePath = some p)
    (hok : playM m info ext hv ha hs w = Except.ok m3) :
    m3.currentFilePath = some p ∧ m3.running = true ∧
    m3.clock = clockPlay (setTime m.clock 0 w) w := by
  unfold playM at hok
  rw [if_pos hstate, hpath] at hok
  simp only [Except.ok.injEq] at hok
  subst hok
  refine ⟨?_, ?_, ?_⟩
  · simpa using openM_path m p info ext hv ha hs w
  · simpa using openM_running m p info ext hv ha hs w
  · simp [openM_clock]

theorem playM_stopped_isOk {m : ManagerState} {p : String} (info : MediaInfoM)
    (ext : List SubFrame) (hv ha hs : Bool) (w : Nat)
    (hstate : m.pstate.state = PlaybackState.Stopped)
    (hpath : m.currentFilePath = some p) :
    ∃ m3, playM m info ext hv ha hs w = Except.ok m3 := by
  unfold playM
  rw [if_pos hstate, hpath]
  exact ⟨_, rfl⟩

/-- C9: after `stop()` the four worker handles are joined/cleared, the frame
queues and the external-subtitle cache are empty, the clock reads 0, the state
is `Stopped` at position 0, and the source path is retained; a subsequent
`play()` from `Stopped` re-opens that retained path and resumes playback
(state `Playing`, threads running, position 0). -/
theorem c9_stop_then_play (m : ManagerState) (w : Nat) (p : String)
    (info : MediaInfoM) (ext : List SubFrame) (hv ha hs : Bool)
    (hpath : m.currentFilePath = some p) :
    (stopM m w).demuxThreadH = false ∧ (stopM m w).videoThreadH = false ∧
    (stopM m w).audioThreadH = false ∧ (stopM m w).subtitleThreadH = false ∧
    (stopM m w).demuxerThreadHandle = none ∧
    (stopM m w).videoFrameQueue = [] ∧ (stopM m w).audioFrameQueue = [] ∧
    (stopM m w).subtitleFrameQueue = [] ∧
    (stopM m w).externalSubtitleFrames = [] ∧
    clockNow (stopM m w).clock w = 0 ∧
    (stopM m w).pstate.state = PlaybackState.Stopped ∧
    (stopM m w).pstate.position = 0 ∧
    (stopM m w).currentFilePath = some p ∧
    ∃ m3, playM (stopM m w) info ext hv ha hs w = Except.ok m3 ∧
      m3.pstate.state = PlaybackState.Playing ∧ m3.currentFilePath = some p ∧
      m3.running = true ∧ clockNow m3.clock w = 0 := by
  have hstate := stopM_state m w
  have hpath2 : (stopM m w).currentFilePath = some p := by rw [stopM_path, hpath]
  obtain ⟨m3, hok⟩ := playM_stopped_isOk info ext hv ha hs w hstate hpath2
  obtain ⟨h1, h2, h3⟩ := playM_stopped_ok hstate hpath2 hok
  refine ⟨by simp [stopM], by simp [stopM], by simp [stopM], by simp [stopM],
    by simp [stopM], by simp [stopM], by simp [stopM], by simp [stopM],
    by simp [stopM], ?_, hstate, by simp [stopM], hpath2,
    m3, hok, playM_ok_state hok, h1, h2, ?_⟩
  · rw [stopM_clock, clockNow_setTime_self]
  · rw [h3, stopM_clock, clockNow_play_setTime_self]

/-- C9 witness: stop and restart a manager holding the path `video.mp4`. -/
theorem c9_witness :
    mgrC9.currentFilePath = some "video.mp4" ∧
    ((stopM mgrC9 3).demuxThreadH = false ∧ (stopM mgrC9 3).videoThreadH = false ∧
     (stopM mgrC9 3).audioThreadH = false ∧ (stopM mgrC9 3).subtitleThreadH = false ∧
     (stopM mgrC9 3).demuxerThreadHandle = none ∧
     (stopM mgrC9 3).videoFrameQueue = [] ∧ (stopM mgrC9 3).audioFrameQueue = [] ∧
     (stopM mgrC9 3).subtitleFrameQueue = [] ∧
     (stopM mgrC9 3).externalSubtitleFrames = [] ∧
     clockNow (stopM mgrC9 3).clock 3 = 0 ∧
     (stopM mgrC9 3).pstate.state = PlaybackState.Stopped ∧
     (stopM mgrC9 3).pstate.position = 0 ∧
     (stopM mgrC9 3).currentFilePath = some "video.mp4" ∧
     ∃ m3, playM (stopM mgrC9 3) ⟨60000, "aac"⟩ [] true true false 3 = Except.ok m3 ∧
       m3.pstate.state = PlaybackState.Playing ∧
       m3.currentFilePath = some "video.mp4" ∧
       m3.running = true ∧ clockNow m3.clock 3 = 0) :=
  ⟨rfl, c9_stop_then_play mgrC9 3 "video.mp4" ⟨60000, "aac"⟩ [] true true false rfl⟩

/-! ## C1 -/

/-- C1 counterexample: in the DemuxerThread-mode audio decode loop, with a
fresh `SeekRequest` targeting 5000 ms, a frame at 50000 ms (far above the
stated `target + 10000` upper bound) is delivered instead of dropped; the
first delivered frame leaves the slot uncleared and, via the first-frame flag,
does call `set_time` on the clock (here to 5000). -/
theorem c1_counterexample :
    (audioFrameStepDT ⟨some (5000, 0), true, clockNew 0, []⟩ 50000 7).queue =
      [50000] ∧
    (audioFrameStepDT ⟨some (5000, 0), true, clockNew 0, []⟩ 5000 7).seekPos =
      some (5000, 0) ∧
    (audioFrameStepDT ⟨some (5000, 0), true, clockNew 0, []⟩ 5000 7).clock.basePts =
      5000 := by
  refine ⟨by decide, by decide, by decide⟩

/-- C1 amended: with a fresh `SeekRequest` (age at most 2 s), the classic
decode loops implement the claim exactly — audio drops frames outside
`[target − 500, target + 10000]`, the first in-window audio frame clears the
slot, resets the first-frame flag and leaves the clock alone, and video drops
frames outside `[target − 1000, target + 10000]` — while the DemuxerThread
loops filter only the lower bound (`pts < target − tolerance`), never write
the slot, and the first audio frame does call `set_time` via the first-frame
flag. -/
theorem c1_amended (target : Int) (elapsed : Nat) (pts : Int) (w : Nat)
    (st : AudioLoopState) (q : List Int)
    (hslot : st.seekPos = some (target, elapsed)) (hfresh : elapsed ≤ 2000) :
    ((pts < target - 500 ∨ target + 10000 < pts) → audioFrameStep st pts w = st) ∧
    (target - 500 ≤ pts → pts ≤ target + 10000 →
      audioFrameStep st pts w =
        { st with seekPos := none, firstAudioFlag := false,
                  queue := st.queue ++ [pts] }) ∧
    (videoFrameStepClassic (some (target, elapsed)) q pts =
      (some (target, elapsed),
        if pts < target - 1000 ∨ target + 10000 < pts then q else q ++ [pts])) ∧
    ((audioFrameStepDT st pts w).queue =
      if pts < target - 500 then st.queue else st.queue ++ [pts]) ∧
    ((audioFrameStepDT st pts w).seekPos = st.seekPos) ∧
    (target - 500 ≤ pts → st.firstAudioFlag = true →
      (audioFrameStepDT st pts w).clock = setTime st.clock pts w) ∧
    (videoFrameStepDT (some (target, elapsed)) q pts =
      if pts < target - 1000 then q else q ++ [pts]) := by
  have hfresh2 : ¬ 2000 < elapsed := by omega
  refine ⟨?_, ?_, ?_, ?_, ?_, ?_, ?_⟩
  · rintro (hlow | hhigh)
    · have h2 : ¬ target + 10000 < pts := by omega
      simp only [audioFrameStep, hslot, hfresh2, hlow, h2, if_true, if_false,
        if_neg, if_pos]
      rw [← hslot]
    · have h1 : ¬ pts < target - 500 := by omega
      simp only [audioFrameStep, hslot, hfresh2, h1, hhigh, if_true, if_false,
        if_neg, if_pos]
      rw [← hslot]
  · intro hge hle
    have h1 : ¬ pts < target - 500 := by omega
    have h2 : ¬ target + 10000 < pts := by omega
    simp [audioFrameStep, hslot, hfresh2, h1, h2]
  · by_cases h1 : pts < target - 1000
    · have : pts < target - 1000 ∨ target + 10000 < pts := Or.inl h1
      simp [videoFrameStepClassic, hfresh2, h1, this]
    · by_cases h2 : target + 10000 < pts
      · have : pts < target - 1000 ∨ target + 10000 < pts := Or.inr h2
        simp [videoFrameStepClassic, hfresh2, h1, h2, this]
      · have : ¬ (pts < target - 1000 ∨ target + 10000 < pts) := by omega
        simp [videoFrameStepClassic, hfresh2, h1, h2, this]
  · by_cases h1 : pts < target - 500
    · simp [audioFrameStepDT, hslot, hfresh2, h1]
    · by_cases hf : st.firstAudioFlag <;>
        simp [audioFrameStepDT, hslot, hfresh2, h1, hf]
  · by_cases h1 : pts < target - 500
    · simp [audioFrameStepDT, hslot, hfresh2, h1]
    · by_cases hf : st.firstAudioFlag <;>
        simp [audioFrameStepDT, hslot, hfresh2, h1, hf]
  · intro hge hf
    have h1 : ¬ pts < target - 500 := by omega
    simp [audioFrameStepDT, hslot, hfresh2, h1, hf]
  · by_cases h1 : pts < target - 1000 <;>
      simp [videoFrameStepDT, hfresh2, h1]

/-- C1 witness: the amended statement at a fresh request targeting 5000 ms and
an in-window frame at 5000 ms. -/
theorem c1_witness :
    (⟨some (5000, 0), true, clockNew 0, []⟩ : AudioLoopState).seekPos =
      some (5000, 0) ∧
    (0 : Nat) ≤ 2000 ∧
    audioFrameStep ⟨some (5000, 0), true, clockNew 0, []⟩ 5000 7 =
      { (⟨some (5000, 0), true, clockNew 0, []⟩ : AudioLoopState) with
        seekPos := none, firstAudioFlag := false, queue := [] ++ [(5000 : Int)] } ∧
    videoFrameStepDT (some (5000, 0)) [] 5000 = [] ++ [(5000 : Int)] := by
  have h := c1_amended 5000 0 5000 7 ⟨some (5000, 0), true, clockNew 0, []⟩ []
    rfl (by decide)
  refine ⟨rfl, by decide, h.2.1 (by decide) (by decide), ?_⟩
  have h7 := h.2.2.2.2.2.2
  simpa using h7

/-! ## C5 -/

theorem gfftScan_inRange (now : Int) (q : List Int) :
    ∀ (checked : Nat) (best : Option Int) (keep future : List Int),
    (∀ x, best = some x → now - 1000 ≤ x ∧ x ≤ now) →
    ∀ f, (gfftScan now q checked best keep future).1 = some f →
      now - 1000 ≤ f ∧ f ≤ now := by
  induction q with
  | nil =>
    intro checked best keep future hbest f hf
    rw [gfftScan.eq_def] at hf
    dsimp only at hf
    by_cases hc : 200 ≤ checked
    · rw [if_pos hc] at hf
      exact hbest f hf
    · rw [if_neg hc] at hf
      exact hbest f hf
  | cons g rest ih =>
    intro checked best keep future hbest f hf
    rw [gfftScan.eq_def] at hf
    dsimp only at hf
    by_cases hc : 200 ≤ checked
    · rw [if_pos hc] at hf
      exact hbest f hf
    · rw [if_neg hc] at hf
      by_cases h1 : g < now - 1000
      · rw [if_pos h1] at hf
        exact ih _ _ _ _ hbest f hf
      · rw [if_neg h1] at hf
        by_cases h2 : g ≤ now
        · rw [if_pos h2] at hf
          rcases best with _ | b
          · exact ih _ _ _ _ (by rintro x ⟨rfl⟩; omega) f hf
          · dsimp only at hf
            by_cases h3 : b < g
            · rw [if_pos h3] at hf
              exact ih _ _ _ _ (by rintro x ⟨rfl⟩; omega) f hf
            · rw [if_neg h3] at hf
              exact ih _ _ _ _ hbest f hf
        · rw [if_neg h2] at hf
          by_cases h4 : future.length < 30
          · rw [if_pos h4] at hf
            exact ih _ _ _ _ hbest f hf
          · rw [if_neg h4] at hf
            exact ih _ _ _ _ hbest f hf

/-- C5: every frame delivered by `get_frame_for_time(now)` has a PTS inside
`[now − 1000, now]` (so `|pts − now| ≤ 1000 ms`); a frame outside this window
is never delivered. -/
theorem c5_frame_window (now : Int) (q : List Int) (f : Int)
    (hf : (getFrameForTime now q).1 = some f) :
    now - 1000 ≤ f ∧ f ≤ now := by
  unfold getFrameForTime at hf
  rcases hscan : gfftScan now q 0 none [] [] with ⟨best, keep, future, rest⟩
  rw [hscan] at hf
  simp only at hf
  have h := gfftScan_inRange now q 0 none [] [] (by rintro x ⟨⟩) f
  rw [hscan] at h
  exact h hf

/-- C5 witness: a queue holding one frame at 500 ms queried at 1000 ms. -/
theorem c5_witness :
    (getFrameForTime 1000 [500]).1 = some 500 ∧
    ((1000 : Int) - 1000 ≤ 500 ∧ (500 : Int) ≤ 1000) :=
  ⟨by decide, c5_frame_window 1000 [500] 500 (by decide)⟩

/-! ## C3 -/

theorem getCurrentFrame_cons (now f : Int) (rest : List Int)
    (h : rest.length + 1 ≤ 80) :
    getCurrentFrame now (f :: rest) = (some f, rest) := by
  unfold getCurrentFrame
  rw [if_neg (by simp; omega)]

theorem fastJump_spec (now : Int) : ∀ (fuel : Nat) (q : List Int) (acc : Option Int),
    q.length ≤ 80 →
    (fastJump now fuel acc q).1 =
      match (q.take fuel).find? (fun x => decide (now - 80 ≤ x)) with
      | some g => some g
      | none =>
        match (q.take fuel).getLast? with
        | some g => some g
        | none => acc := by
  intro fuel
  induction fuel with
  | zero => intro q acc h; simp [fastJump]
  | succ fuel ih =>
    intro q acc h
    cases q with
    | nil => simp [fastJump, getCurrentFrame]
    | cons f rest =>
      have hr : rest.length ≤ 80 := by simp at h; omega
      rw [fastJump, getCurrentFrame_cons now f rest h]
      dsimp only
      by_cases hp : f < now - 80
      · rw [if_pos hp]
        rw [ih rest (some f) hr]
        have hpf : (decide (now - 80 ≤ f)) = false := by
          simp; omega
        rw [List.take_succ_cons, List.find?_cons, hpf]
        dsimp only
        cases hfd : (rest.take fuel).find? (fun x => decide (now - 80 ≤ x)) with
        | some g => rfl
        | none =>
          cases hrt : rest.take fuel with
          | nil => simp
          | cons a l =>
            rw [List.getLast?_cons_cons]
            dsimp only
            cases hgl : (a :: l).getLast? with
            | none => simp at hgl
            | some g => rfl
      · rw [if_neg hp]
        have hpf : (decide (now - 80 ≤ f)) = true := by
          simp; omega
        rw [List.take_succ_cons, List.find?_cons, hpf]

/-- C3 counterexample: with the displayed frame at PTS 0 and the clock at
1000 ms (lag far above 150 ms), a queue holding only a frame at 100 ms — older
than `now − 80 = 920` — yields that too-old frame instead of discarding it, so
the fast-jump tier does not only display in-range frames. -/
theorem c3_counterexample :
    renderFrameSelect 1000 (some 0) [100] = (some 100, []) ∧
    (100 : Int) < 1000 - 80 :=
  ⟨by decide, by decide⟩

/-- C3 amended: the three-tier policy holds as stated for the first two tiers
(lag in [−10, 50]: advance exactly when lag ≥ 40; lag in (50, 150]: threshold
30, hence always advance), and for lag > 150 ms the code pops at most 10
frames, skipping frames with `pts < now − 80` in favor of newer ones and
displaying the first in-range frame — but when no in-range frame appears
within those pops, the last popped too-old frame is displayed as a fallback
rather than discarded. -/
theorem c3_amended :
    (∀ (now p : Int) (q : List Int), -10 ≤ now - p → now - p ≤ 50 →
      renderFrameSelect now (some p) q =
        if 40 ≤ now - p then getCurrentFrame now q else (none, q)) ∧
    (∀ (now p : Int) (q : List Int), 50 < now - p → now - p ≤ 150 →
      30 ≤ now - p ∧ renderFrameSelect now (some p) q = getCurrentFrame now q) ∧
    (∀ (now p : Int) (q : List Int), 150 < now - p →
      renderFrameSelect now (some p) q = fastJump now 10 none q) ∧
    (∀ (now : Int) (q : List Int), q.length ≤ 80 →
      (fastJump now 10 none q).1 =
        match (q.take 10).find? (fun x => decide (now - 80 ≤ x)) with
        | some g => some g
        | none =>
          match (q.take 10).getLast? with
          | some g => some g
          | none => none) := by
  refine ⟨?_, ?_, ?_, ?_⟩
  · intro now p q h1 h2
    unfold renderFrameSelect
    dsimp only
    have ha : ¬ 150 < now - p := by omega
    have hb : ¬ 50 < now - p := by omega
    rw [if_neg ha, if_neg hb]
    by_cases hc : 40 ≤ now - p
    · rw [if_pos hc, if_neg ha, if_pos hc]
    · rw [if_neg hc, if_neg hc]
  · intro now p q h1 h2
    refine ⟨by omega, ?_⟩
    unfold renderFrameSelect
    dsimp only
    have ha : ¬ 150 < now - p := by omega
    rw [if_neg ha, if_pos h1, if_pos (by omega : (30 : Int) ≤ now - p), if_neg ha]
  · intro now p q h1
    unfold renderFrameSelect
    dsimp only
    rw [if_pos h1, if_pos (by omega : (0 : Int) ≤ now - p), if_pos h1]
  · intro now q h
    exact fastJump_spec now 10 q none h

/-- C3 witness: the first tier at lag 40 (advances), and the fast-jump
characterization on a one-frame in-range queue. -/
theorem c3_witness :
    (-10 : Int) ≤ 100 - 60 ∧ (100 : Int) - 60 ≤ 50 ∧
    renderFrameSelect 100 (some 60) [77] =
      (if (40 : Int) ≤ 100 - 60 then getCurrentFrame 100 [77] else (none, [77])) ∧
    ([(950 : Int)].length ≤ 80 ∧
     (fastJump 1000 10 none [950]).1 =
       match ([(950 : Int)].take 10).find? (fun x => decide (1000 - 80 ≤ x)) with
       | some g => some g
       | none =>
         match ([(950 : Int)].take 10).getLast? with
         | some g => some g
         | none => none) :=
  ⟨by decide, by decide, c3_amended.1 100 60 [77] (by decide) (by decide),
   by decide, c3_amended.2.2.2 1000 [950] (by decide)⟩

/-! ## C4 -/

theorem subScan_fst (now : Int) : ∀ (q : List SubFrame) (checked : Nat)
    (best : Option SubFrame) (pending : List SubFrame),
    checked + q.length ≤ 100 →
    (subScan now q checked best pending).1 = bestFold now best q := by
  intro q
  induction q with
  | nil => intro checked best pending h; rfl
  | cons f rest ih =>
    intro checked best pending h
    have hcnt : ¬ 100 < checked + 1 := by simp at h; omega
    have hrest : checked + 1 + rest.length ≤ 100 := by simp at h; omega
    rw [subScan.eq_def]
    dsimp only
    rw [if_neg hcnt]
    by_cases hcov : f.pts ≤ now ∧ now < f.endPts
    · rw [if_pos hcov]
      rcases best with _ | b
      · dsimp only
        rw [ih _ _ _ hrest]
        simp [bestFold, bestStep, hcov]
      · dsimp only
        by_cases hlt : b.pts < f.pts
        · rw [if_pos hlt, ih _ _ _ hrest]
          simp [bestFold, bestStep, hcov, hlt]
        · rw [if_neg hlt, ih _ _ _ hrest]
          simp [bestFold, bestStep, hcov, hlt]
    · rw [if_neg hcov]
      by_cases hfut : now < f.pts
      · rw [if_pos hfut, ih _ _ _ hrest]
        simp [bestFold, bestStep, hcov]
      · rw [if_neg hfut, ih _ _ _ hrest]
        simp [bestFold, bestStep, hcov]

theorem bestFold_acc_some (now : Int) : ∀ (q : List SubFrame) (b : SubFrame),
    ∃ r, bestFold now (some b) q = some r := by
  intro q
  induction q with
  | nil => intro b; exact ⟨b, rfl⟩
  | cons f rest ih =>
    intro b
    rw [bestFold, List.foldl_cons]
    by_cases hcov : f.pts ≤ now ∧ now < f.endPts
    · by_cases hlt : b.pts < f.pts
      · simpa [bestStep, hcov, hlt] using ih f
      · simpa [bestStep, hcov, hlt] using ih b
    · simpa [bestStep, hcov] using ih b

theorem bestFold_none_of_no_cover (now : Int) : ∀ (q : List SubFrame),
    (∀ f ∈ q, ¬ (f.pts ≤ now ∧ now < f.endPts)) →
    bestFold now none q = none := by
  intro q
  induction q with
  | nil => intro _; rfl
  | cons f rest ih =>
    intro h
    rw [bestFold, List.foldl_cons]
    have hcov : ¬ (f.pts ≤ now ∧ now < f.endPts) := h f (by simp)
    rw [show bestStep now none f = none by simp [bestStep, hcov]]
    exact ih (fun g hg => h g (by simp [hg]))

theorem bestFold_acc_le (now : Int) : ∀ (q : List SubFrame) (b r : SubFrame),
    bestFold now (some b) q = some r → b.pts ≤ r.pts := by
  intro q
  induction q with
  | nil => intro b r h; rw [bestFold] at h; simp at h; rw [h]
  | cons f rest ih =>
    intro b r h
    rw [bestFold, List.foldl_cons] at h
    by_cases hcov : f.pts ≤ now ∧ now < f.endPts
    · by_cases hlt : b.pts < f.pts
      · rw [show bestStep now (some b) f = some f by simp [bestStep, hcov, hlt]] at h
        exact le_of_lt (lt_of_lt_of_le hlt (ih f r h))
      · rw [show bestStep now (some b) f = some b by simp [bestStep, hcov, hlt]] at h
        exact ih b r h
    · rw [show bestStep now (some b) f = some b by simp [bestStep, hcov]] at h
      exact ih b r h

theorem bestFold_mem_covers (now : Int) : ∀ (q : List SubFrame)
    (acc : Option SubFrame) (r : SubFrame),
    bestFold now acc q = some r →
    acc = some r ∨ (r ∈ q ∧ r.pts ≤ now ∧ now < r.endPts) := by
  intro q
  induction q with
  | nil => intro acc r h; rw [bestFold] at h; simp at h; left; rw [h]
  | cons f rest ih =>
    intro acc r h
    rw [bestFold, List.foldl_cons] at h
    rcases ih (bestStep now acc f) r h with hacc | hmem
    · by_cases hcov : f.pts ≤ now ∧ now < f.endPts
      · rcases acc with _ | b
        · rw [show bestStep now none f = some f by simp [bestStep, hcov]] at hacc
          right
          injection hacc with hbf
          exact ⟨by simp [← hbf], by rw [← hbf]; exact hcov⟩
        · by_cases hlt : b.pts < f.pts
          · rw [show bestStep now (some b) f = some f by
                simp [bestStep, hcov, hlt]] at hacc
            right
            injection hacc with hbf
            exact ⟨by simp [← hbf], by rw [← hbf]; exact hcov⟩
          · rw [show bestStep now (some b) f = some b by
                simp [bestStep, hcov, hlt]] at hacc
            left; exact hacc
      · rw [show bestStep now acc f = acc by simp [bestStep, hcov]] at hacc
        left; exact hacc
    · right; exact ⟨by simp [hmem.1], hmem.2⟩

theorem bestFold_max (now : Int) : ∀ (q : List SubFrame) (acc : Option SubFrame)
    (r : SubFrame), bestFold now acc q = some r →
    ∀ g ∈ q, g.pts ≤ now → now < g.endPts → g.pts ≤ r.pts := by
  intro q
  induction q with
  | nil => intro acc r _ g hg; simp at hg
  | cons f rest ih =>
    intro acc r h g hg hg1 hg2
    rw [bestFold, List.foldl_cons] at h
    rcases List.mem_cons.mp hg with hgf | hgrest
    · subst hgf
      have hcov : g.pts ≤ now ∧ now < g.endPts := ⟨hg1, hg2⟩
      rcases acc with _ | b
      · rw [show bestStep now none g = some g by simp [bestStep, hcov]] at h
        exact bestFold_acc_le now rest g r h
      · by_cases hlt : b.pts < g.pts
        · rw [show bestStep now (some b) g = some g by
              simp [bestStep, hcov, hlt]] at h
          exact bestFold_acc_le now rest g r h
        · rw [show bestStep now (some b) g = some b by
              simp [bestStep, hcov, hlt]] at h
          exact le_trans (not_lt.mp hlt) (bestFold_acc_le now rest b r h)
    · exact ih (bestStep now acc f) r h g hgrest hg1 hg2

theorem getExternalSubtitle_sorted (now : Int) : ∀ (l : List SubFrame),
    List.Pairwise (fun a b => a.pts ≤ b.pts) l →
    getExternalSubtitle now l =
      l.find? (fun f => decide (f.pts ≤ now) && decide (now < f.endPts)) := by
  intro l
  induction l with
  | nil => intro _; rfl
  | cons f rest ih =>
    intro hPw
    rw [getExternalSubtitle, List.find?_cons]
    by_cases hcov : f.pts ≤ now ∧ now < f.endPts
    · rw [if_pos hcov]
      have : (decide (f.pts ≤ now) && decide (now < f.endPts)) = true := by
        simp [hcov.1, hcov.2]
      rw [this]
    · rw [if_neg hcov]
      have hpf : (decide (f.pts ≤ now) && decide (now < f.endPts)) = false := by
        rcases not_and_or.mp hcov with h1 | h2
        · simp [h1]
        · simp [h2]
      rw [hpf]
      by_cases hfut : now < f.pts
      · rw [if_pos hfut]
        have hall : ∀ g ∈ rest, ¬ (decide (g.pts ≤ now) && decide (now < g.endPts)) = true := by
          intro g hg
          have hle : f.pts ≤ g.pts := (List.pairwise_cons.mp hPw).1 g hg
          have : ¬ g.pts ≤ now := by omega
          simp [this]
        rw [List.find?_eq_none.mpr hall]
      · rw [if_neg hfut]
        exact ih (List.pairwise_cons.mp hPw).2

/-- C4 counterexample: two overlapping external cues (starts 0 and 10, both
covering 50) with an empty embedded queue: the delivered cue is the one with
the smaller start (0), not the largest. -/
theorem c4_counterexample :
    (getCurrentSubtitle 50 [] [⟨0, 100, "A", 100⟩, ⟨10, 90, "B", 100⟩]).1 =
      some ⟨0, 100, "A", 100⟩ ∧
    ((10 : Int) ≤ 50 ∧ (50 : Int) < 100) ∧
    (0 : Int) < 10 :=
  ⟨by decide, by decide, by decide⟩

/-- C4 amended: among embedded cues covering `now`, `get_current_subtitle`
returns one with the largest start (for queues within the 100-frame scan
limit), and external cues are consulted only when no embedded cue covers
`now`; however on the external list the code returns the **first** covering
cue of the pts-sorted list — the one with the smallest start — not the
largest. -/
theorem c4_subtitle_selection (now : Int) (q ext : List SubFrame)
    (hq : q.length ≤ 100) :
    ((∀ f ∈ q, ¬ (f.pts ≤ now ∧ now < f.endPts)) →
      (getCurrentSubtitle now q ext).1 = getExternalSubtitle now ext) ∧
    ((∃ f ∈ q, f.pts ≤ now ∧ now < f.endPts) →
      ∃ b, (getCurrentSubtitle now q ext).1 = some b ∧ b ∈ q ∧
        b.pts ≤ now ∧ now < b.endPts ∧
        ∀ g ∈ q, g.pts ≤ now → now < g.endPts → g.pts ≤ b.pts) ∧
    (∀ l, List.Pairwise (fun a b => a.pts ≤ b.pts) l →
      getExternalSubtitle now l =
        l.find? (fun f => decide (f.pts ≤ now) && decide (now < f.endPts))) := by
  have hfst := subScan_fst now q 0 none [] (by omega)
  refine ⟨?_, ?_, fun l h => getExternalSubtitle_sorted now l h⟩
  · intro hnone
    unfold getCurrentSubtitle
    rcases hs : subScan now q 0 none [] with ⟨best, pending⟩
    have hb : best = none := by
      have := hfst
      rw [hs] at this
      simp at this
      rw [this]
      exact bestFold_none_of_no_cover now q hnone
    subst hb
    rfl
  · rintro ⟨f, hf, hcov⟩
    unfold getCurrentSubtitle
    rcases hs : subScan now q 0 none [] with ⟨best, pending⟩
    have hb : best = bestFold now none q := by
      have := hfst
      rw [hs] at this
      simpa using this
    rcases hbf : bestFold now none q with _ | r
    · exfalso
      have := bestFold_max now q none
      rcases hcontra : bestFold now none q with _ | r2
      · -- show a covering element forces some
        -- use bestFold_acc_some after the first covering element: do directly
        -- fold over q with none acc: induct via bestFold_none_of_no_cover contrapositive
        have : ¬ bestFold now none q = none := by
          intro hn
          -- if fold is none then no element covers: prove by induction here
          have haux : ∀ (qq : List SubFrame), bestFold now none qq = none →
              ∀ g ∈ qq, ¬ (g.pts ≤ now ∧ now < g.endPts) := by
            intro qq
            induction qq with
            | nil => intro _ g hg; simp at hg
            | cons a rest ih =>
              intro hnil g hg
              rw [bestFold, List.foldl_cons] at hnil
              by_cases hcova : a.pts ≤ now ∧ now < a.endPts
              · exfalso
                rw [show bestStep now none a = some a by simp [bestStep, hcova]] at hnil
                obtain ⟨r3, hr3⟩ := bestFold_acc_some now rest a
                rw [bestFold] at hr3
                rw [hr3] at hnil
                simp at hnil
              · rw [show bestStep now none a = none by simp [bestStep, hcova]] at hnil
                rcases List.mem_cons.mp hg with rfl | hgrest
                · exact hcova
                · exact ih hnil g hgrest
          exact haux q hn f hf hcov
        exact this hcontra
      · rw [hbf] at hcontra; cases hcontra
    · refine ⟨r, ?_, ?_, ?_⟩
      · rw [hb, hbf]
      · rcases bestFold_mem_covers now q none r hbf with habs | hmem
        · cases habs
        · exact hmem.1
      · rcases bestFold_mem_covers now q none r hbf with habs | hmem
        · cases habs
        · exact ⟨hmem.2.1, hmem.2.2, fun g hg h1 h2 =>
            bestFold_max now q none r hbf g hg h1 h2⟩

/-- C4 witness: an empty embedded queue falls through to the external lookup,
and the sorted external lookup equals the first-covering-cue search. -/
theorem c4_witness :
    (([] : List SubFrame).length ≤ 100) ∧
    ((getCurrentSubtitle 50 [] [⟨10, 90, "B", 100⟩]).1 =
      getExternalSubtitle 50 [⟨10, 90, "B", 100⟩]) ∧
    List.Pairwise (fun a b : SubFrame => a.pts ≤ b.pts)
      [(⟨10, 90, "B", 100⟩ : SubFrame)] ∧
    (getExternalSubtitle 50 [⟨10, 90, "B", 100⟩] =
      [(⟨10, 90, "B", 100⟩ : SubFrame)].find?
        (fun f => decide (f.pts ≤ 50) && decide (50 < f.endPts))) :=
  ⟨by decide,
   (c4_subtitle_selection 50 [] [⟨10, 90, "B", 100⟩] (by decide)).1 (by simp),
   by simp,
   (c4_subtitle_selection 50 [] [⟨10, 90, "B", 100⟩] (by decide)).2.2
     [⟨10, 90, "B", 100⟩] (by simp)⟩

/-! ## C7 -/

/-- C7: the cleanup routines do not behave as documented.  The external
parser's `clean_ass_text` leaves `\N` outside tags literal (its newline
conversion is dead code guarded by `in_tag`), contradicting the repo's own
unit test `test_clean_ass_text`, which expects `"Line 1\nLine 2"`.  On the
claim's example cue, `clean_ass_text` yields `"Hi\NThere"` and the embedded
decoder's `clean_subtitle_text` leaks the tag-internal backslashes, yielding
`"\\Hi\nThere"` — neither equals the specified `"Hi\nThere"`.  (The
`\N`→newline conversion outside tags does work in `clean_subtitle_text`.) -/
theorem c7_clean_text_bug :
    cleanAssText "Line 1\\NLine 2" = "Line 1\\NLine 2" ∧
    cleanAssText "Line 1\\NLine 2" ≠ "Line 1\nLine 2" ∧
    cleanAssText "\x7b\\an8\\pos(1,2)\x7dHi\\NThere" = "Hi\\NThere" ∧
    cleanSubtitleText "\x7b\\an8\\pos(1,2)\x7dHi\\NThere" = "\\\\Hi\nThere" ∧
    cleanSubtitleText "\x7b\\an8\\pos(1,2)\x7dHi\\NThere" ≠ "Hi\nThere" ∧
    cleanSubtitleText "Hi\\NThere" = "Hi\nThere" :=
  ⟨by decide, by decide, by decide, by decide, by decide, by decide⟩

/-! ## C8 -/

theorem char_digit_bounds {c : Char} (h : c.isDigit = true) :
    48 ≤ c.toNat ∧ c.toNat ≤ 57 := by
  simp [Char.isDigit] at h
  exact ⟨h.1, h.2⟩

theorem char_digit_ne {c x : Char} (h : c.isDigit = true) (hx : x.isDigit = false) :
    c ≠ x := by
  intro hc
  rw [hc, hx] at h
  cases h

theorem no_sep_of_digits {ds : List Char} (h : ds.all Char.isDigit = true)
    {x : Char} (hx : x.isDigit = false) : x ∉ ds := by
  intro hmem
  have := List.all_eq_true.mp h x hmem
  rw [this] at hx
  cases hx

theorem digitsVal_aux_le : ∀ (ds : List Char) (acc : Nat),
    ds.all Char.isDigit = true →
    ds.foldl (fun a c => 10 * a + (c.toNat - 48)) acc + 1 ≤ (acc + 1) * 10 ^ ds.length := by
  intro ds
  induction ds with
  | nil => intro acc _; simp
  | cons c rest ih =>
    intro acc h
    rw [List.all_cons, Bool.and_eq_true] at h
    have hd : c.toNat - 48 ≤ 9 := by
      have := char_digit_bounds h.1
      omega
    have step := ih (10 * acc + (c.toNat - 48)) h.2
    calc (c :: rest).foldl (fun a c => 10 * a + (c.toNat - 48)) acc + 1
        = rest.foldl (fun a c => 10 * a + (c.toNat - 48)) (10 * acc + (c.toNat - 48)) + 1 := by
          rw [List.foldl_cons]
      _ ≤ (10 * acc + (c.toNat - 48) + 1) * 10 ^ rest.length := step
      _ ≤ ((acc + 1) * 10) * 10 ^ rest.length := by
          have : 10 * acc + (c.toNat - 48) + 1 ≤ (acc + 1) * 10 := by omega
          exact Nat.mul_le_mul_right _ this
      _ = (acc + 1) * 10 ^ (c :: rest).length := by
          rw [List.length_cons, pow_succ]
          ring

theorem digitsVal_lt {ds : List Char} (h : ds.all Char.isDigit = true) :
    digitsVal ds < 10 ^ ds.length := by
  have := digitsVal_aux_le ds 0 h
  simpa [digitsVal] using this

theorem digitsVal_le_i64Max {ds : List Char} (h : ds.all Char.isDigit = true)
    (hlen : ds.length ≤ 18) : (digitsVal ds : Int) ≤ i64Max := by
  have h1 := digitsVal_lt h
  have h2 : (10 : Nat) ^ ds.length ≤ 10 ^ 18 := Nat.pow_le_pow_right (by omega) hlen
  have h3 : (10 : Nat) ^ 18 ≤ 9223372036854775807 := by decide
  have : digitsVal ds ≤ 9223372036854775807 := by omega
  rw [i64Max]
  exact_mod_cast this

theorem rustParseI64_digits {ds : List Char} (hne : ds ≠ [])
    (h : ds.all Char.isDigit = true) (hlen : ds.length ≤ 18) :
    rustParseI64 ds = some ((digitsVal ds : Int)) := by
  have hbound := digitsVal_le_i64Max h hlen
  rcases ds with _ | ⟨c, rest⟩
  · cases hne rfl
  · have hcd : c.isDigit = true := by
      rw [List.all_cons, Bool.and_eq_true] at h
      exact h.1
    have hplus : c ≠ '+' := char_digit_ne hcd (by decide)
    have hminus : c ≠ '-' := char_digit_ne hcd (by decide)
    rw [rustParseI64.eq_def]
    split
    · rename_i heq
      injection heq with h1 _
      exact absurd h1 hplus
    · rename_i heq
      injection heq with h1 _
      exact absurd h1 hminus
    · rw [if_pos ⟨by simp, h⟩, if_pos hbound]

theorem rsSplit_of_not_mem (sep : Char) : ∀ (cs : List Char), sep ∉ cs →
    rsSplit sep cs = [cs] := by
  intro cs
  induction cs with
  | nil => intro _; rfl
  | cons c rest ih =>
    intro h
    have hc : ¬ c = sep := fun hc => h (by rw [hc]; exact List.mem_cons_self _ _)
    rw [rsSplit, if_neg hc, ih (fun hm => h (List.mem_cons_of_mem _ hm))]

theorem rsSplit_append (sep : Char) : ∀ (a b : List Char), sep ∉ a →
    rsSplit sep (a ++ sep :: b) = a :: rsSplit sep b := by
  intro a
  induction a with
  | nil =>
    intro b _
    rw [List.nil_append, rsSplit, if_pos rfl]
  | cons c rest ih =>
    intro b h
    have hc : ¬ c = sep := fun hc => h (by rw [hc]; exact List.mem_cons_self _ _)
    rw [List.cons_append, rsSplit, if_neg hc,
      ih b (fun hm => h (List.mem_cons_of_mem _ hm))]

theorem sep_not_in_time {x : Char} (a b c : List Char) (hx : x.isDigit = false)
    (hne : x ≠ ':') (ha : a.all Char.isDigit = true) (hb : b.all Char.isDigit = true)
    (hc : c.all Char.isDigit = true) : x ∉ a ++ (':' :: (b ++ (':' :: c))) := by
  simp only [List.mem_append, List.mem_cons]
  push_neg
  exact ⟨no_sep_of_digits ha hx, hne, no_sep_of_digits hb hx, hne,
    no_sep_of_digits hc hx⟩

theorem timeSplit3 (a b c : List Char) (ha : a.all Char.isDigit = true)
    (hb : b.all Char.isDigit = true) (hc : c.all Char.isDigit = true) :
    rsSplit ':' (a ++ (':' :: (b ++ (':' :: c)))) = [a, b, c] := by
  rw [rsSplit_append ':' a _ (no_sep_of_digits ha (by decide)),
    rsSplit_append ':' b c (no_sep_of_digits hb (by decide)),
    rsSplit_of_not_mem ':' c (no_sep_of_digits hc (by decide))]

theorem timeSplit2 (b c : List Char) (hb : b.all Char.isDigit = true)
    (hc : c.all Char.isDigit = true) :
    rsSplit ':' (b ++ (':' :: c)) = [b, c] := by
  rw [rsSplit_append ':' b c (no_sep_of_digits hb (by decide)),
    rsSplit_of_not_mem ':' c (no_sep_of_digits hc (by decide))]

/-- C8 counterexample: `"0:1:2,3"` is not of the accepted `HH:MM:SS,mmm`
shape, yet `parse_srt_timestamp` returns `Some 62003` rather than `None`. -/
theorem c8_counterexample :
    srtShapeSpec "0:1:2,3".toList = false ∧
    parseSrtTimestamp "0:1:2,3".toList = some 62003 :=
  ⟨by decide, by decide⟩

/-- C8 amended: for digit-string fields (of any width up to 18, in particular
the stated `HH:MM:SS,mmm`, `H:MM:SS.cc`, `HH:MM:SS.mmm`, `MM:SS.mmm` shapes)
the parsers produce exactly the stated millisecond combination — centiseconds
scaled by 10 for ASS — but they validate only the delimiter structure and
i64-parsability of the fields, so strings outside the stated fixed-width
shapes also parse; a string whose fields contain no `','` (for SRT: no
delimiter at all) yields `None`. -/
theorem c8_timestamp_parsers :
    (∀ a b c d : List Char,
      a ≠ [] → b ≠ [] → c ≠ [] → d ≠ [] →
      a.all Char.isDigit = true → b.all Char.isDigit = true →
      c.all Char.isDigit = true → d.all Char.isDigit = true →
      a.length ≤ 18 → b.length ≤ 18 → c.length ≤ 18 → d.length ≤ 18 →
      parseSrtTimestamp ((a ++ (':' :: (b ++ (':' :: c)))) ++ (',' :: d)) =
        some ((digitsVal a : Int) * 3600000 + (digitsVal b : Int) * 60000 +
          (digitsVal c : Int) * 1000 + (digitsVal d : Int))) ∧
    (∀ a b c d : List Char,
      a ≠ [] → b ≠ [] → c ≠ [] → d ≠ [] →
      a.all Char.isDigit = true → b.all Char.isDigit = true →
      c.all Char.isDigit = true → d.all Char.isDigit = true →
      a.length ≤ 18 → b.length ≤ 18 → c.length ≤ 18 → d.length ≤ 18 →
      parseAssTimestamp ((a ++ (':' :: (b ++ (':' :: c)))) ++ ('.' :: d)) =
        some ((digitsVal a : Int) * 3600000 + (digitsVal b : Int) * 60000 +
          (digitsVal c : Int) * 1000 + (digitsVal d : Int) * 10)) ∧
    (∀ a b c d : List Char,
      a ≠ [] → b ≠ [] → c ≠ [] → d ≠ [] →
      a.all Char.isDigit = true → b.all Char.isDigit = true →
      c.all Char.isDigit = true → d.all Char.isDigit = true →
      a.length ≤ 18 → b.length ≤ 18 → c.length ≤ 18 → d.length ≤ 18 →
      parseVttTimestamp ((a ++ (':' :: (b ++ (':' :: c)))) ++ ('.' :: d)) =
        some ((digitsVal a : Int) * 3600000 + (digitsVal b : Int) * 60000 +
          (digitsVal c : Int) * 1000 + (digitsVal d : Int))) ∧
    (∀ b c d : List Char,
      b ≠ [] → c ≠ [] → d ≠ [] →
      b.all Char.isDigit = true → c.all Char.isDigit = true →
      d.all Char.isDigit = true →
      b.length ≤ 18 → c.length ≤ 18 → d.length ≤ 18 →
      parseVttTimestamp ((b ++ (':' :: c)) ++ ('.' :: d)) =
        some ((digitsVal b : Int) * 60000 + (digitsVal c : Int) * 1000 +
          (digitsVal d : Int))) ∧
    (∀ cs : List Char, (',' : Char) ∉ cs → parseSrtTimestamp cs = none) := by
  refine ⟨?_, ?_, ?_, ?_, ?_⟩
  · intro a b c d hna hnb hnc hnd ha hb hc hd la lb lc ld
    have hsplit : rsSplit ',' ((a ++ (':' :: (b ++ (':' :: c)))) ++ (',' :: d)) =
        [a ++ (':' :: (b ++ (':' :: c))), d] := by
      rw [rsSplit_append ',' _ d (sep_not_in_time a b c (by decide) (by decide) ha hb hc),
        rsSplit_of_not_mem ',' d (no_sep_of_digits hd (by decide))]
    rw [parseSrtTimestamp, hsplit]
    dsimp only
    rw [rustParseI64_digits hnd hd ld]
    dsimp only
    rw [timeSplit3 a b c ha hb hc]
    dsimp only
    rw [rustParseI64_digits hna ha la]
    dsimp only
    rw [rustParseI64_digits hnb hb lb]
    dsimp only
    rw [rustParseI64_digits hnc hc lc]
  · intro a b c d hna hnb hnc hnd ha hb hc hd la lb lc ld
    have hsplit : rsSplit '.' ((a ++ (':' :: (b ++ (':' :: c)))) ++ ('.' :: d)) =
        [a ++ (':' :: (b ++ (':' :: c))), d] := by
      rw [rsSplit_append '.' _ d (sep_not_in_time a b c (by decide) (by decide) ha hb hc),
        rsSplit_of_not_mem '.' d (no_sep_of_digits hd (by decide))]
    rw [parseAssTimestamp, hsplit]
    dsimp only
    rw [rustParseI64_digits hnd hd ld]
    dsimp only
    rw [timeSplit3 a b c ha hb hc]
    dsimp only
    rw [rustParseI64_digits hna ha la]
    dsimp only
    rw [rustParseI64_digits hnb hb lb]
    dsimp only
    rw [rustParseI64_digits hnc hc lc]
  · intro a b c d hna hnb hnc hnd ha hb hc hd la lb lc ld
    have hsplit : rsSplit '.' ((a ++ (':' :: (b ++ (':' :: c)))) ++ ('.' :: d)) =
        [a ++ (':' :: (b ++ (':' :: c))), d] := by
      rw [rsSplit_append '.' _ d (sep_not_in_time a b c (by decide) (by decide) ha hb hc),
        rsSplit_of_not_mem '.' d (no_sep_of_digits hd (by decide))]
    rw [parseVttTimestamp, hsplit]
    dsimp only
    rw [rustParseI64_digits hnd hd ld]
    dsimp only
    rw [timeSplit3 a b c ha hb hc]
    dsimp only
    rw [rustParseI64_digits hna ha la]
    dsimp only
    rw [rustParseI64_digits hnb hb lb]
    dsimp only
    rw [rustParseI64_digits hnc hc lc]
  · intro b c d hnb hnc hnd hb hc hd lb lc ld
    have hnotin : ('.' : Char) ∉ b ++ (':' :: c) := by
      simp only [List.mem_append, List.mem_cons]
      push_neg
      exact ⟨no_sep_of_digits hb (by decide), by decide,
        no_sep_of_digits hc (by decide)⟩
    have hsplit : rsSplit '.' ((b ++ (':' :: c)) ++ ('.' :: d)) =
        [b ++ (':' :: c), d] := by
      rw [rsSplit_append '.' _ d hnotin,
        rsSplit_of_not_mem '.' d (no_sep_of_digits hd (by decide))]
    rw [parseVttTimestamp, hsplit]
    dsimp only
    rw [rustParseI64_digits hnd hd ld]
    dsimp only
    rw [timeSplit2 b c hb hc]
    dsimp only
    rw [rustParseI64_digits hnb hb lb]
    dsimp only
    rw [rustParseI64_digits hnc hc lc]
  · intro cs h
    rw [parseSrtTimestamp, rsSplit_of_not_mem ',' cs h]

/-- C8 witness: the canonical `00:01:30,500` parses to 90 500 ms through the
amended mapping. -/
theorem c8_witness :
    (['0', '0'] : List Char) ≠ [] ∧
    (['0', '0'] : List Char).all Char.isDigit = true ∧
    parseSrtTimestamp ((['0', '0'] ++ (':' :: (['0', '1'] ++ (':' :: ['3', '0'])))) ++
        (',' :: ['5', '0', '0'])) =
      some ((digitsVal ['0', '0'] : Int) * 3600000 +
        (digitsVal ['0', '1'] : Int) * 60000 +
        (digitsVal ['3', '0'] : Int) * 1000 + (digitsVal ['5', '0', '0'] : Int)) :=
  ⟨by decide, by decide,
   c8_timestamp_parsers.1 ['0', '0'] ['0', '1'] ['3', '0'] ['5', '0', '0']
     (by decide) (by decide) (by decide) (by decide) (by decide) (by decide)
     (by decide) (by decide) (by decide) (by decide) (by decide) (by decide)⟩
